import Mathlib

/-!
Verification of the seo-analyzer crawl-and-analyze pipeline
(src/backend/services/crawler.py and src/backend/services/content_analyzer.py).

The Python source is shallowly embedded: pure helper functions become Lean
functions on `String` / `List Char` / `ℚ`; the asynchronous crawl loop becomes
a fuel-indexed deterministic transition function over an explicit crawl state
(asyncio runs one job cooperatively on a single thread, and the visited-set
check-and-add in `fetch_page` contains no suspension point, so sequential
batch processing is a faithful model of the per-batch task group).  The
network is modelled as a finite association list from URL to either a fetch
failure or the anchors of the fetched document; HTML parsing by BeautifulSoup
is abstracted to the anchor list it yields.  Python floats are modelled by
exact rationals.
-/

namespace Seo

/-! ## String helpers (models of Python str / urllib operations) -/

/-- Occurrence of `p` as a contiguous sublist of the second argument
(models Python's substring test `p in s`). -/
def subOccurs (p : List Char) : List Char → Bool
  | [] => p.isEmpty
  | c :: t => p.isPrefixOf (c :: t) || subOccurs p t

/-- Python's `pat in s` substring test. -/
def strContains (s pat : String) : Bool :=
  subOccurs pat.data s.data

/-- Python's `s.startswith(p)`. -/
def strStartsWith (s p : String) : Bool :=
  p.data.isPrefixOf s.data

/-- Python whitespace characters recognised by `str.split()` / `str.strip()`. -/
def isPyWs (c : Char) : Bool :=
  c == ' ' || c == '\t' || c == '\n' || c == '\x0d' || c == '\x0b' || c == '\x0c'

/-- Python's `s.strip()` (strip whitespace from both ends). -/
def pyStrip (s : String) : String :=
  String.mk (((s.data.dropWhile isPyWs).reverse.dropWhile isPyWs).reverse)

/-- Python's `s.rstrip(c)` for a single character `c`. -/
def pyRstripChar (s : String) (c : Char) : String :=
  String.mk ((s.data.reverse.dropWhile (fun d => d == c)).reverse)

/-- Python's `str.split()`: split on whitespace runs, dropping empty pieces. -/
def splitWsAux : List Char → List Char → List (List Char)
  | [], acc => if acc.isEmpty then [] else [acc.reverse]
  | c :: t, acc =>
      if isPyWs c then
        (if acc.isEmpty then [] else [acc.reverse]) ++ splitWsAux t []
      else splitWsAux t (c :: acc)

/-- Python's `text.split()` producing the list of words. -/
def splitWords (s : String) : List String :=
  (splitWsAux s.data []).map String.mk

/-- Number of maximal runs of sentence-terminal punctuation; models
`len(re.findall(r'[.!?]+', text))`. -/
def sentAux : List Char → Bool → Nat
  | [], _ => 0
  | c :: t, inRun =>
      if c == '.' || c == '!' || c == '?' then
        (if inRun then 0 else 1) + sentAux t true
      else sentAux t false

/-- Sentence count used by the readability computations. -/
def countSentences (s : String) : Nat :=
  sentAux s.data false

/-- Characters stripped from word ends before syllable counting,
models Python `word.strip(".,!?;:\x22")`. -/
def punctChars : List Char :=
  ['.', ',', '!', '?', ';', ':', '\x22']

/-- Strip the syllable-counting punctuation from both ends of a word. -/
def stripPunct (w : List Char) : List Char :=
  ((w.dropWhile (fun c => punctChars.contains c)).reverse.dropWhile
      (fun c => punctChars.contains c)).reverse

/-- Count vowel clusters: one syllable per maximal run of vowels. -/
def syllAux (vowels : List Char) : List Char → Bool → Nat
  | [], _ => 0
  | c :: t, prev =>
      if vowels.contains c then
        (if prev then 0 else 1) + syllAux vowels t true
      else syllAux vowels t false

/-- Host ("netloc") characters: everything up to the first path, query or
fragment delimiter. -/
def hostChars (l : List Char) : List Char :=
  l.takeWhile (fun c => !(c == '/') && !(c == '?') && !(c == '#'))

/-- Split a URL at the first "://" into scheme characters and the remainder,
if present. -/
def schemeSplit : List Char → Option (List Char × List Char)
  | [] => none
  | c :: t =>
      if [':', '/', '/'].isPrefixOf (c :: t) then some ([], t.drop 2)
      else
        match schemeSplit t with
        | some (s, r) => some (c :: s, r)
        | none => none

/-- Models `urllib.parse.urlparse(u).netloc` for the URL shapes reaching it
here: absolute URLs "scheme://host..." yield the host, scheme-less relative
references yield the empty string. -/
def netloc (u : String) : String :=
  match schemeSplit u.data with
  | none => String.mk []
  | some (_, r) => String.mk (hostChars r)

/-- Directory part of a path: up to and including the last '/', or "/" when
the path has no '/'. -/
def dirOf (p : List Char) : List Char :=
  if p.contains '/' then (p.reverse.dropWhile (fun c => !(c == '/'))).reverse
  else ['/']

/-- Models `urllib.parse.urljoin(base, href)` for the inputs this pipeline
produces: absolute http(s) bases, and hrefs that are either absolute,
protocol-relative ("//host..."), root-relative ("/path...") or plain
relative; no ".." segment resolution or query merging (none occur here). -/
def urljoin (base href : String) : String :=
  match schemeSplit href.data with
  | some _ => href
  | none =>
      match schemeSplit base.data with
      | none => href
      | some (sch, rest) =>
          let host := hostChars rest
          if ['/', '/'].isPrefixOf href.data then
            String.mk (sch ++ [':'] ++ href.data)
          else if ['/'].isPrefixOf href.data then
            String.mk (sch ++ [':', '/', '/'] ++ host ++ href.data)
          else
            String.mk (sch ++ [':', '/', '/'] ++ host ++
              dirOf (rest.drop host.length) ++ href.data)

/-- Remove the fragment: everything from the first '#' on. -/
def strip_fragment (u : String) : String :=
  String.mk (u.data.takeWhile (fun c => !(c == '#')))

/-- URL scheme in the sense of `urllib.parse.urlparse`: the part before a ':'
that precedes any '/', '?' or '#'; empty when there is none. -/
def scheme_of (u : String) : String :=
  let pre := u.data.takeWhile
    (fun c => !(c == ':') && !(c == '/') && !(c == '?') && !(c == '#'))
  match (u.data.drop pre.length).head? with
  | some c => if c == ':' then String.mk pre else String.mk []
  | none => String.mk []

/-- Python `round(x, 2)` on exact rationals: round half to even at two
decimal places. -/
def pyRound2 (q : ℚ) : ℚ :=
  let y : ℚ := q * 100
  let f : ℤ := Int.floor y
  let r : ℚ := y - (f : ℚ)
  let n : ℤ :=
    if 1 / 2 < r then f + 1
    else if r < 1 / 2 then f
    else if f % 2 = 0 then f else f + 1
  (n : ℚ) / 100

/-! ## ContentAnalyzer (crawler.py): readability -/

namespace ContentAnalyzer

/-- `ContentAnalyzer.count_syllables`: lower-case, strip punctuation, count
vowel clusters over "aeiouy", drop one for a trailing 'e' when more than one
cluster was found, and floor at 1.  (Char.toLower lowers ASCII letters, which
is all the English vowel test inspects.) -/
def count_syllables (w : String) : Nat :=
  let wl := stripPunct (w.data.map Char.toLower)
  let n := syllAux ['a', 'e', 'i', 'o', 'u', 'y'] wl false
  let n := if wl.getLast? == some 'e' && decide (1 < n) then n - 1 else n
  max 1 n

/-- `ContentAnalyzer.calculate_readability`: Flesch Reading Ease with the
result clamped to [0, 100] and rounded to two decimals; 0 when the text has
no sentences or no words (or no syllables).  Python floats are modelled by
exact rationals. -/
def calculate_readability (text : String) : ℚ :=
  let sentences := countSentences text
  let words := (splitWords text).length
  if sentences = 0 ∨ words = 0 then 0
  else
    let syllables := ((splitWords text).map count_syllables).sum
    if syllables = 0 then 0
    else
      let score : ℚ := 206835 / 1000 - (1015 / 1000) * ((words : ℚ) / (sentences : ℚ))
        - (846 / 10) * ((syllables : ℚ) / (words : ℚ))
      pyRound2 (max 0 (min 100 score))

end ContentAnalyzer

/-! ## MultiLanguageContentAnalyzer (content_analyzer.py): readability -/

/-- Readability result dictionary: score, level and method.  The Hungarian
variant's extra diagnostic keys (average sentence length / syllables per
word) are derived values not inspected by any claim and are omitted. -/
structure ReadabilityResult where
  score : ℚ
  level : String
  method : String
deriving Repr, DecidableEq

namespace MultiLanguageContentAnalyzer

/-- `MultiLanguageContentAnalyzer.count_syllables` (English), identical to
the `ContentAnalyzer` copy in the source. -/
def count_syllables (w : String) : Nat :=
  let wl := stripPunct (w.data.map Char.toLower)
  let n := syllAux ['a', 'e', 'i', 'o', 'u', 'y'] wl false
  let n := if wl.getLast? == some 'e' && decide (1 < n) then n - 1 else n
  max 1 n

/-- Hungarian vowels, including long and umlauted forms. -/
def hungarianVowels : List Char :=
  ['a', 'á', 'e', 'é', 'i', 'í', 'o', 'ó', 'ö', 'ő', 'u', 'ú', 'ü', 'ű']

/-- `count_hungarian_syllables`: vowel-cluster count over the Hungarian vowel
set, floored at 1 (the source's digraph check is a no-op `pass`). -/
def count_hungarian_syllables (w : String) : Nat :=
  let wl := stripPunct (w.data.map Char.toLower)
  max 1 (syllAux hungarianVowels wl false)

/-- `calculate_hungarian_readability`: adapted coefficients
200 - 1.1·(words/sentences) - 60·(syllables/words), clamped to [0, 100],
bucketed into five levels; score 0 and level "unknown" for degenerate text. -/
def calculate_hungarian_readability (text : String) : ReadabilityResult :=
  let sentences := countSentences text
  let words := (splitWords text).length
  if sentences = 0 ∨ words = 0 then
    { score := 0, level := "unknown", method := "hungarian_adapted" }
  else
    let syllables := ((splitWords text).map count_hungarian_syllables).sum
    if syllables = 0 then
      { score := 0, level := "unknown", method := "hungarian_adapted" }
    else
      let avg_sentence_length : ℚ := (words : ℚ) / (sentences : ℚ)
      let avg_syllables_per_word : ℚ := (syllables : ℚ) / (words : ℚ)
      let score : ℚ :=
        max 0 (min 100 (200 - (11 / 10) * avg_sentence_length - 60 * avg_syllables_per_word))
      let level :=
        if 80 ≤ score then "very_easy"
        else if 65 ≤ score then "easy"
        else if 50 ≤ score then "medium"
        else if 35 ≤ score then "difficult"
        else "very_difficult"
      { score := pyRound2 score, level := level, method := "hungarian_adapted" }

/-- `calculate_flesch_readability`: the standard formula, clamped to [0, 100]
and bucketed into seven levels; score 0 and level "unknown" for degenerate
text. -/
def calculate_flesch_readability (text : String) : ReadabilityResult :=
  let sentences := countSentences text
  let words := (splitWords text).length
  if sentences = 0 ∨ words = 0 then
    { score := 0, level := "unknown", method := "flesch" }
  else
    let syllables := ((splitWords text).map count_syllables).sum
    if syllables = 0 then
      { score := 0, level := "unknown", method := "flesch" }
    else
      let score : ℚ :=
        max 0 (min 100 (206835 / 1000 - (1015 / 1000) * ((words : ℚ) / (sentences : ℚ))
          - (846 / 10) * ((syllables : ℚ) / (words : ℚ))))
      let level :=
        if 90 ≤ score then "very_easy"
        else if 80 ≤ score then "easy"
        else if 70 ≤ score then "fairly_easy"
        else if 60 ≤ score then "standard"
        else if 50 ≤ score then "fairly_difficult"
        else if 30 ≤ score then "difficult"
        else "very_difficult"
      { score := pyRound2 score, level := level, method := "flesch" }

/-- `MultiLanguageContentAnalyzer.calculate_readability`: dispatch on the
detected language. -/
def calculate_readability (text language : String) : ReadabilityResult :=
  if language = "hu" then calculate_hungarian_readability text
  else calculate_flesch_readability text

end MultiLanguageContentAnalyzer

/-! ## TechnicalSEOAnalyzer (crawler.py): issue rules -/

/-- One issue record.  The human-readable description/recommendation strings
and the current/suggested values are not inspected by any claim and are
omitted from the record. -/
structure Issue where
  issue_type : String
  severity : String
  category : String
  impact_score : Nat
  element_selector : Option String
deriving Repr, DecidableEq

namespace TechnicalSEOAnalyzer

/-- `TechnicalSEOAnalyzer.analyze_title`.  The input models
`soup.find('title')`: `none` when the document has no title element,
`some raw` for the title element's text; the source strips it before
measuring. -/
def analyze_title (title : Option String) : List Issue :=
  match title with
  | none =>
      [{ issue_type := "missing_title", severity := "critical",
         category := "technical", impact_score := 95,
         element_selector := some "title" }]
  | some raw =>
      let title_text := pyStrip raw
      if title_text.length = 0 then
        [{ issue_type := "empty_title", severity := "critical",
           category := "technical", impact_score := 95,
           element_selector := some "title" }]
      else if title_text.length < 30 then
        [{ issue_type := "short_title", severity := "medium",
           category := "content", impact_score := 60,
           element_selector := some "title" }]
      else if 60 < title_text.length then
        [{ issue_type := "long_title", severity := "medium",
           category := "content", impact_score := 50,
           element_selector := some "title" }]
      else []

/-- `TechnicalSEOAnalyzer.analyze_canonical`.  The input models
`soup.find('link', rel='canonical')`: `none` when there is no canonical tag,
`some h` for a tag whose `href` attribute is `h` (itself `none` when the
attribute is absent, in which case Python's `None != url` comparisons hold). -/
def analyze_canonical (canonical : Option (Option String)) (url : String) : List Issue :=
  match canonical with
  | none =>
      [{ issue_type := "missing_canonical", severity := "medium",
         category := "technical", impact_score := 60,
         element_selector := some "link[rel=\x22canonical\x22]" }]
  | some canonical_url =>
      if canonical_url ≠ some url ∧ canonical_url ≠ some (pyRstripChar url '/') then
        [{ issue_type := "non_self_canonical", severity := "low",
           category := "technical", impact_score := 30,
           element_selector := some "link[rel=\x22canonical\x22]" }]
      else []

end TechnicalSEOAnalyzer

/-! ## AsyncWebCrawler (crawler.py) -/

/-- One `<a href=...>` element of a parsed document, as BeautifulSoup hands
it to `extract_links_detailed`: href attribute, anchor text, rel attribute
list, and whether the anchor sits inside a nav/header/footer ancestor. -/
structure Anchor where
  href : String
  text : String
  rel : List String
  inNav : Bool
deriving Repr, DecidableEq

/-- The per-link dictionary built by `extract_links_detailed` (the `title`
and `target` attribute copies are not inspected by any claim and are
omitted). -/
structure LinkData where
  url : String
  anchor_text : String
  rel : List String
  is_navigation : Bool
deriving Repr, DecidableEq

/-- `CrawlConfig`, restricted to the fields the crawl loop reads.  The
fetch/render tuning fields (delay, timeout, user_agent, headers, rendering
and analysis toggles) do not influence which pages are produced and are not
modelled. -/
structure CrawlConfig where
  max_urls : Nat
  max_depth : Nat
  max_concurrent : Nat
  respect_robots : Bool
  exclude_patterns : List String
  include_patterns : List String
deriving Repr, DecidableEq

/-- The source's `CrawlConfig` defaults: max_urls=1000, max_depth=3,
max_concurrent=10, respect_robots=True, empty pattern lists. -/
def defaultConfig : CrawlConfig :=
  { max_urls := 1000, max_depth := 3, max_concurrent := 10,
    respect_robots := true, exclude_patterns := [], include_patterns := [] }

namespace AsyncWebCrawler

/-- The skip test of `extract_links_detailed`:
`any(pattern in href for pattern in ['mailto:', 'tel:', 'javascript:', '#'])`.
Note it is a substring test, so a '#' anywhere in the href discards it. -/
def skipPatterns : List String :=
  [r"mailto:", r"tel:", r"javascript:", r"#"]

/-- True when the href is skipped by `extract_links_detailed`. -/
def href_skip (href : String) : Bool :=
  skipPatterns.any (fun p => strContains href p)

/-- The href-to-absolute step of `extract_links_detailed`: root-relative and
plain-relative hrefs go through urljoin, hrefs starting with "http" are kept
as they are. -/
def resolve_href (base_url href : String) : String :=
  if strStartsWith href r"/" then urljoin base_url href
  else if strStartsWith href r"http" then href
  else urljoin base_url href

/-- `AsyncWebCrawler.extract_links_detailed`: walk the document's anchors in
order, drop skipped hrefs, resolve the rest, and classify each resulting
link as internal (its netloc equals the base URL's netloc) or external. -/
def extract_links_detailed (anchors : List Anchor) (base_url : String) :
    List LinkData × List LinkData :=
  match anchors with
  | [] => ([], [])
  | a :: rest =>
      let tail := extract_links_detailed rest base_url
      if href_skip a.href then tail
      else
        let full_url := resolve_href base_url a.href
        let link_data : LinkData :=
          { url := full_url, anchor_text := pyStrip a.text, rel := a.rel,
            is_navigation := a.inNav }
        if netloc full_url = netloc base_url then
          (link_data :: tail.1, tail.2)
        else
          (tail.1, link_data :: tail.2)

/-- Formalisation of the claim's wording about link extraction, for
comparison with the code: resolve every anchor href to an absolute URL
against the base URL, strip the fragment from the resolved URL, discard
hrefs whose scheme is mailto, tel or javascript, and classify by host. -/
def extract_links_spec (anchors : List Anchor) (base_url : String) :
    List LinkData × List LinkData :=
  match anchors with
  | [] => ([], [])
  | a :: rest =>
      let tail := extract_links_spec rest base_url
      if scheme_of a.href ∈ [r"mailto", r"tel", r"javascript"] then tail
      else
        let full_url := strip_fragment (urljoin base_url a.href)
        let link_data : LinkData :=
          { url := full_url, anchor_text := pyStrip a.text, rel := a.rel,
            is_navigation := a.inNav }
        if netloc full_url = netloc base_url then
          (link_data :: tail.1, tail.2)
        else
          (tail.1, link_data :: tail.2)

/-- What the network knows about one URL: the anchors of the document served
there.  (All other page facts extracted by the analyzer are irrelevant to
the scheduling claims.) -/
structure PageData where
  anchors : List Anchor
deriving Repr, DecidableEq

/-- The network, as a finite association list: `some pd` means the fetch
succeeds and the document parses to `pd`; `none` (or an absent key) means
the fetch raises (timeout, connection error, or any other exception caught
by `fetch_page`). -/
abbrev Web : Type := List (String × Option PageData)

/-- First-match lookup of a URL's fetch outcome. -/
def webFetch : Web → String → Option PageData
  | [], _ => none
  | (k, v) :: rest, u => if k = u then v else webFetch rest u

/-- An upper bound on the number of anchors of any document in the web. -/
def webLinkBound : Web → Nat
  | [] => 0
  | (_, none) :: rest => webLinkBound rest
  | (_, some pd) :: rest => max pd.anchors.length (webLinkBound rest)

/-- `self.stats` plus the visited set (`self.visited_urls`). -/
structure CrawlState where
  visited : List String
  total_processed : Nat
  successful : Nat
  failed : Nat
  errors : List String
deriving Repr, DecidableEq

/-- The crawler's state at job start. -/
def initState : CrawlState :=
  { visited := [], total_processed := 0, successful := 0, failed := 0, errors := [] }

/-- `AsyncWebCrawler.can_fetch`: `True` when robots are not respected;
otherwise the domain's robots policy decides (the per-domain cache and the
fail-open branch on an unreadable robots.txt are folded into the abstract
policy function `robots`). -/
def can_fetch (cfg : CrawlConfig) (robots : String → Bool) (url : String) : Bool :=
  if !cfg.respect_robots then true else robots url

/-- `AsyncWebCrawler.should_exclude_url`: any exclude-pattern substring match
rejects; otherwise, when include patterns exist, the URL must contain at
least one of them. -/
def should_exclude_url (cfg : CrawlConfig) (url : String) : Bool :=
  if cfg.exclude_patterns.any (fun p => strContains url p) then true
  else if cfg.include_patterns.isEmpty then false
  else !(cfg.include_patterns.any (fun p => strContains url p))

/-- The slice of the dictionary built by `analyze_page_comprehensive` that
the crawl loop reads back: url, depth, and the extracted link lists. -/
structure PageRecord where
  url : String
  depth : Nat
  internal_links : List LinkData
  external_links : List LinkData
deriving Repr, DecidableEq

/-- The page-analysis step as seen by the scheduler. -/
def analyze_page_model (url : String) (depth : Nat) (pd : PageData) : PageRecord :=
  let links := extract_links_detailed pd.anchors url
  { url := url, depth := depth, internal_links := links.1, external_links := links.2 }

/-- `AsyncWebCrawler.fetch_page`: skip (returning no record and leaving the
stats untouched) when the URL is already visited, disallowed by robots, or
excluded by pattern; otherwise mark it visited, count it processed, and
either fail (failed += 1, an error message appended, no record) or succeed
(successful += 1, record produced).  The visited check-and-add contains no
await in the source, so it is atomic under asyncio's cooperative
scheduling. -/
def fetch_page (cfg : CrawlConfig) (web : Web) (robots : String → Bool)
    (st : CrawlState) (url : String) (depth : Nat) : CrawlState × Option PageRecord :=
  if url ∈ st.visited ∨ can_fetch cfg robots url = false ∨
      should_exclude_url cfg url = true then
    (st, none)
  else
    let st1 : CrawlState :=
      { st with visited := url :: st.visited,
                total_processed := st.total_processed + 1 }
    match webFetch web url with
    | none =>
        ({ st1 with failed := st1.failed + 1,
                    errors := st1.errors ++ [r"Failed to fetch " ++ url] }, none)
    | some pd =>
        ({ st1 with successful := st1.successful + 1 },
         some (analyze_page_model url depth pd))

/-- One batch of `fetch_page` tasks.  The tasks' visited/stats updates are
serialised by the asyncio event loop in task-creation order, and
`asyncio.gather` returns results in that same order with the `None` results
then filtered by the `isinstance(result, dict)` check. -/
def process_batch (cfg : CrawlConfig) (web : Web) (robots : String → Bool) :
    CrawlState → List (String × Nat) → CrawlState × List PageRecord
  | st, [] => (st, [])
  | st, (u, d) :: rest =>
      let fr := fetch_page cfg web robots st u d
      let pr := process_batch cfg web robots fr.1 rest
      (pr.1,
        match fr.2 with
        | some r => r :: pr.2
        | none => pr.2)

/-- The link-enqueueing step for one freshly appended record: when the
record's depth is below max_depth, append each internal link that is not yet
visited, while the accumulated page count is below max_urls, and that is not
pattern-excluded, at depth `record depth + 1`. -/
def enqueue_links (cfg : CrawlConfig) (visited : List String) (pagesLen : Nat)
    (queue : List (String × Nat)) (r : PageRecord) : List (String × Nat) :=
  if r.depth < cfg.max_depth then
    queue ++ (r.internal_links.filter (fun ld =>
        decide (ld.url ∉ visited) && decide (pagesLen < cfg.max_urls) &&
        !(should_exclude_url cfg ld.url))).map (fun ld => (ld.url, r.depth + 1))
  else queue

/-- The `for result in batch_results` loop: append each record to the
crawled pages (in order) and enqueue its internal links against the page
count as it stands after that append. -/
def integrate (cfg : CrawlConfig) (visited : List String) :
    List PageRecord → List PageRecord → List (String × Nat) →
      List PageRecord × List (String × Nat)
  | [], pages, queue => (pages, queue)
  | r :: rs, pages, queue =>
      integrate cfg visited rs (pages ++ [r])
        (enqueue_links cfg visited (pages ++ [r]).length queue r)

/-- The `while urls_to_crawl and len(crawled_pages) < max_urls` loop of
`crawl_website`, fuel-indexed: take a batch of at most max_concurrent
frontier entries, create tasks only for those with depth ≤ max_depth,
process them, then integrate the results.  Returns `none` only on fuel
exhaustion (shown below never to happen for the fuel used). -/
def crawl_loop (cfg : CrawlConfig) (web : Web) (robots : String → Bool) :
    Nat → CrawlState → List (String × Nat) → List PageRecord →
      Option (List PageRecord × CrawlState)
  | 0, _, _, _ => none
  | fuel + 1, st, queue, pages =>
      if queue = [] ∨ cfg.max_urls ≤ pages.length then some (pages, st)
      else
        let b := min cfg.max_concurrent queue.length
        let batch := (queue.take b).filter (fun e => decide (e.2 ≤ cfg.max_depth))
        let pr := process_batch cfg web robots st batch
        let iq := integrate cfg pr.1.visited pr.2 pages (queue.drop b)
        crawl_loop cfg web robots fuel pr.1 iq.2 iq.1

/-- `urls_to_crawl = [(start_url, 0)]`: the seed frontier. -/
def init_frontier (start_url : String) : List (String × Nat) :=
  [(start_url, 0)]

/-- Fuel sufficient for the loop to reach a stop condition (proved below):
one more than the measure `queue length + (max_urls + max_concurrent) * link
bound` of the initial state. -/
def crawl_fuel (cfg : CrawlConfig) (web : Web) : Nat :=
  2 + (cfg.max_urls + cfg.max_concurrent) * webLinkBound web

/-- Outcome of a `crawl_website` call: the crawled pages and final stats, or
the ZeroDivisionError the source raises in its final statistics logging
(`successful / total_processed`) when no URL was ever processed.  `fuelOut`
marks fuel exhaustion of the model's loop and is proved unreachable. -/
inductive CrawlOutcome where
  | fuelOut : CrawlOutcome
  | zeroDivError : CrawlOutcome
  | ok : List PageRecord → CrawlState → CrawlOutcome
deriving Repr, DecidableEq

/-- `AsyncWebCrawler.crawl_website`: run the loop from the seed frontier,
then compute the final statistics.  The average-load-time line guards the
empty case (`if crawled_pages else 0`) but the success-rate line divides by
`total_processed` unguarded, so a run that processed no URL raises. -/
def crawl_website (cfg : CrawlConfig) (web : Web) (robots : String → Bool)
    (start_url : String) : CrawlOutcome :=
  match crawl_loop cfg web robots (crawl_fuel cfg web) initState
      (init_frontier start_url) [] with
  | none => CrawlOutcome.fuelOut
  | some (pages, st) =>
      if st.total_processed = 0 then CrawlOutcome.zeroDivError
      else CrawlOutcome.ok pages st

/-- The pages a crawl produced (empty for the two failure outcomes). -/
def outcomePages : CrawlOutcome → List PageRecord
  | CrawlOutcome.ok pages _ => pages
  | _ => []

end AsyncWebCrawler

/-! ## Concrete instances used by witnesses and counterexamples -/

open AsyncWebCrawler

/-- The configuration of spec scenario 4: max_urls=5, max_depth=1, all other
fields at their source defaults (in particular max_concurrent=10). -/
def cfgC1 : CrawlConfig :=
  { defaultConfig with max_urls := 5, max_depth := 1 }

/-- Ten distinct internal anchors for the scenario's seed page. -/
def seedAnchors : List Anchor :=
  [{ href := r"/0", text := "", rel := [], inNav := false },
   { href := r"/1", text := "", rel := [], inNav := false },
   { href := r"/2", text := "", rel := [], inNav := false },
   { href := r"/3", text := "", rel := [], inNav := false },
   { href := r"/4", text := "", rel := [], inNav := false },
   { href := r"/5", text := "", rel := [], inNav := false },
   { href := r"/6", text := "", rel := [], inNav := false },
   { href := r"/7", text := "", rel := [], inNav := false },
   { href := r"/8", text := "", rel := [], inNav := false },
   { href := r"/9", text := "", rel := [], inNav := false }]

/-- A site whose seed page links to 10 distinct internal URLs, each serving
an anchor-free document; every fetch succeeds. -/
def webC1 : Web :=
  [(r"http://e/", some { anchors := seedAnchors }),
   (r"http://e/0", some { anchors := [] }),
   (r"http://e/1", some { anchors := [] }),
   (r"http://e/2", some { anchors := [] }),
   (r"http://e/3", some { anchors := [] }),
   (r"http://e/4", some { anchors := [] }),
   (r"http://e/5", some { anchors := [] }),
   (r"http://e/6", some { anchors := [] }),
   (r"http://e/7", some { anchors := [] }),
   (r"http://e/8", some { anchors := [] }),
   (r"http://e/9", some { anchors := [] })]

/-- A robots policy allowing everything. -/
def robotsAll : String → Bool := fun _ => true

/-- An anchor whose href carries a fragment. -/
def aC2 : Anchor :=
  { href := r"/a#b", text := r"x", rel := [], inNav := false }

/-- Anchors exercising both link classes for the link-extraction witness. -/
def anchorsW2 : List Anchor :=
  [{ href := r"/p", text := r"t", rel := [], inNav := false },
   { href := r"http://x/q", text := r"u", rel := [r"nofollow"], inNav := true },
   { href := r"#frag", text := r"v", rel := [], inNav := false }]

/-- A state in which "u" has already been dispatched. -/
def stW3 : CrawlState :=
  { visited := [r"u"], total_processed := 1, successful := 1, failed := 0, errors := [] }

/-- A record at depth 0 carrying one internal link. -/
def rW4 : PageRecord :=
  { url := r"http://e/", depth := 0,
    internal_links := [{ url := r"http://e/0", anchor_text := "", rel := [],
                         is_navigation := false }],
    external_links := [] }

/-- A configuration whose exclude pattern matches the seed URL itself. -/
def cfgC10 : CrawlConfig :=
  { defaultConfig with exclude_patterns := [r"x"] }

/-- A configuration with one exclude pattern, for the pattern-filter witness. -/
def cfgW6 : CrawlConfig :=
  { defaultConfig with exclude_patterns := [r"x"] }

/-- A configuration with empty pattern lists. -/
def cfgW6e : CrawlConfig := defaultConfig

/-! ## Helper lemmas -/

/-- Rounding half to even at two decimals keeps a value of [0, 100] inside
[0, 100]. -/
theorem pyRound2_mem (q : ℚ) (h0 : 0 ≤ q) (h1 : q ≤ 100) :
    0 ≤ pyRound2 q ∧ pyRound2 q ≤ 100 := by
  have hy0 : (0 : ℚ) ≤ q * 100 := by nlinarith
  have hy1 : q * 100 ≤ 10000 := by nlinarith
  have hf0 : (0 : ℤ) ≤ ⌊q * 100⌋ := Int.le_floor.mpr (by exact_mod_cast hy0)
  have hf1 : ⌊q * 100⌋ ≤ 10000 := by
    have h := Int.floor_le_floor (α := ℚ) (show q * 100 ≤ ((10000 : ℤ) : ℚ) by exact_mod_cast hy1)
    simpa using h
  have hfl : (⌊q * 100⌋ : ℚ) ≤ q * 100 := Int.floor_le _
  have hf0q : (0 : ℚ) ≤ (⌊q * 100⌋ : ℚ) := by exact_mod_cast hf0
  have hf1q : (⌊q * 100⌋ : ℚ) ≤ 10000 := by exact_mod_cast hf1
  have h100 : (0 : ℚ) < 100 := by norm_num
  simp only [pyRound2]
  split_ifs with hgt hlt hpar
  · have hfi : ⌊q * 100⌋ < 10000 := by
      have : (⌊q * 100⌋ : ℚ) < 10000 := by linarith
      exact_mod_cast this
    have hlt10 : (⌊q * 100⌋ : ℚ) + 1 ≤ 10000 := by
      have h2 : ⌊q * 100⌋ + 1 ≤ 10000 := by omega
      exact_mod_cast h2
    constructor
    · apply div_nonneg _ (by norm_num)
      push_cast
      linarith
    · rw [div_le_iff₀ h100]
      push_cast
      linarith
  · constructor
    · exact div_nonneg hf0q (by norm_num)
    · rw [div_le_iff₀ h100]
      linarith
  · constructor
    · exact div_nonneg hf0q (by norm_num)
    · rw [div_le_iff₀ h100]
      linarith
  · have hreq : q * 100 - (⌊q * 100⌋ : ℚ) = 1 / 2 := le_antisymm (not_lt.mp hgt) (not_lt.mp hlt)
    have hfi : ⌊q * 100⌋ < 10000 := by
      have : (⌊q * 100⌋ : ℚ) < 10000 := by linarith
      exact_mod_cast this
    have hlt10 : (⌊q * 100⌋ : ℚ) + 1 ≤ 10000 := by
      have h2 : ⌊q * 100⌋ + 1 ≤ 10000 := by omega
      exact_mod_cast h2
    constructor
    · apply div_nonneg _ (by norm_num)
      push_cast
      linarith
    · rw [div_le_iff₀ h100]
      push_cast
      linarith

/-- The crawler-side readability score lies in [0, 100]. -/
theorem calculate_readability_mem (text : String) :
    0 ≤ ContentAnalyzer.calculate_readability text ∧
      ContentAnalyzer.calculate_readability text ≤ 100 := by
  simp only [ContentAnalyzer.calculate_readability]
  split_ifs with h1 h2
  · exact ⟨le_refl 0, by norm_num⟩
  · exact ⟨le_refl 0, by norm_num⟩
  · exact pyRound2_mem _ (le_max_left _ _) (max_le (by norm_num) (min_le_left _ _))

/-- The fixed vocabulary of readability levels used by both language
variants. -/
def readabilityLevels : List String :=
  [r"unknown", r"very_easy", r"easy", r"medium", r"difficult", r"very_difficult",
   r"fairly_easy", r"standard", r"fairly_difficult"]

/-- The Hungarian-adapted readability result is clamped and bucketed. -/
theorem calculate_hungarian_readability_mem (text : String) :
    0 ≤ (MultiLanguageContentAnalyzer.calculate_hungarian_readability text).score ∧
    (MultiLanguageContentAnalyzer.calculate_hungarian_readability text).score ≤ 100 ∧
    (MultiLanguageContentAnalyzer.calculate_hungarian_readability text).level ∈
      readabilityLevels := by
  simp only [MultiLanguageContentAnalyzer.calculate_hungarian_readability]
  have hsc := fun s : ℚ => pyRound2_mem (0 ⊔ 100 ⊓ s) (le_max_left _ _)
      (max_le (by norm_num) (min_le_left _ _))
  split_ifs
  · exact ⟨le_refl 0, by norm_num, by decide⟩
  · exact ⟨le_refl 0, by norm_num, by decide⟩
  · exact ⟨(hsc _).1, (hsc _).2, by simp [readabilityLevels]⟩
  · exact ⟨(hsc _).1, (hsc _).2, by simp [readabilityLevels]⟩
  · exact ⟨(hsc _).1, (hsc _).2, by simp [readabilityLevels]⟩
  · exact ⟨(hsc _).1, (hsc _).2, by simp [readabilityLevels]⟩
  · exact ⟨(hsc _).1, (hsc _).2, by simp [readabilityLevels]⟩

/-- The Flesch readability result is clamped and bucketed. -/
theorem calculate_flesch_readability_mem (text : String) :
    0 ≤ (MultiLanguageContentAnalyzer.calculate_flesch_readability text).score ∧
    (MultiLanguageContentAnalyzer.calculate_flesch_readability text).score ≤ 100 ∧
    (MultiLanguageContentAnalyzer.calculate_flesch_readability text).level ∈
      readabilityLevels := by
  simp only [MultiLanguageContentAnalyzer.calculate_flesch_readability]
  have hsc := fun s : ℚ => pyRound2_mem (0 ⊔ 100 ⊓ s) (le_max_left _ _)
      (max_le (by norm_num) (min_le_left _ _))
  split_ifs
  · exact ⟨le_refl 0, by norm_num, by decide⟩
  · exact ⟨le_refl 0, by norm_num, by decide⟩
  · exact ⟨(hsc _).1, (hsc _).2, by simp [readabilityLevels]⟩
  · exact ⟨(hsc _).1, (hsc _).2, by simp [readabilityLevels]⟩
  · exact ⟨(hsc _).1, (hsc _).2, by simp [readabilityLevels]⟩
  · exact ⟨(hsc _).1, (hsc _).2, by simp [readabilityLevels]⟩
  · exact ⟨(hsc _).1, (hsc _).2, by simp [readabilityLevels]⟩
  · exact ⟨(hsc _).1, (hsc _).2, by simp [readabilityLevels]⟩
  · exact ⟨(hsc _).1, (hsc _).2, by simp [readabilityLevels]⟩

/-- Both output lists of `extract_links_detailed` satisfy the host
classification: internal links share the base host, external links do
not. -/
theorem extract_links_netloc_split (anchors : List Anchor) (base_url : String) :
    (∀ l ∈ (extract_links_detailed anchors base_url).1, netloc l.url = netloc base_url) ∧
    (∀ l ∈ (extract_links_detailed anchors base_url).2, netloc l.url ≠ netloc base_url) := by
  induction anchors with
  | nil => simp [extract_links_detailed]
  | cons a rest ih =>
      simp only [extract_links_detailed]
      split_ifs with hs hc
      · exact ih
      · refine ⟨?_, ih.2⟩
        intro l hl
        rcases List.mem_cons.mp hl with h | h
        · subst h
          exact hc
        · exact ih.1 l h
      · refine ⟨ih.1, ?_⟩
        intro l hl
        rcases List.mem_cons.mp hl with h | h
        · subst h
          exact hc
        · exact ih.2 l h

/-- `extract_links_detailed` keeps exactly the anchors whose href passes the
skip test. -/
theorem extract_links_count (anchors : List Anchor) (base_url : String) :
    (extract_links_detailed anchors base_url).1.length +
        (extract_links_detailed anchors base_url).2.length =
      (anchors.filter (fun a => !href_skip a.href)).length := by
  induction anchors with
  | nil => simp [extract_links_detailed]
  | cons a rest ih =>
      by_cases hs : href_skip a.href
      · simpa [extract_links_detailed, hs] using ih
      · by_cases hc : netloc (resolve_href base_url a.href) = netloc base_url
        · simp [extract_links_detailed, hs, hc, List.filter_cons]
          omega
        · simp [extract_links_detailed, hs, hc, List.filter_cons]
          omega

/-- Every produced link stems from a non-skipped anchor and carries exactly
the resolved href. -/
theorem extract_links_origin (anchors : List Anchor) (base_url : String) :
    ∀ l, l ∈ (extract_links_detailed anchors base_url).1 ∨
        l ∈ (extract_links_detailed anchors base_url).2 →
      ∃ a ∈ anchors, href_skip a.href = false ∧
        l.url = resolve_href base_url a.href := by
  induction anchors with
  | nil => simp [extract_links_detailed]
  | cons a rest ih =>
      intro l hl
      simp only [extract_links_detailed] at hl
      split_ifs at hl with hs hc
      · obtain ⟨a0, ha0, h⟩ := ih l hl
        exact ⟨a0, List.mem_cons_of_mem a ha0, h⟩
      · rcases hl with hl | hl
        · rcases List.mem_cons.mp hl with h | h
          · subst h
            exact ⟨a, List.mem_cons_self a rest, by simp [hs], rfl⟩
          · obtain ⟨a0, ha0, hrest⟩ := ih l (Or.inl h)
            exact ⟨a0, List.mem_cons_of_mem a ha0, hrest⟩
        · obtain ⟨a0, ha0, hrest⟩ := ih l (Or.inr hl)
          exact ⟨a0, List.mem_cons_of_mem a ha0, hrest⟩
      · rcases hl with hl | hl
        · obtain ⟨a0, ha0, hrest⟩ := ih l (Or.inl hl)
          exact ⟨a0, List.mem_cons_of_mem a ha0, hrest⟩
        · rcases List.mem_cons.mp hl with h | h
          · subst h
            exact ⟨a, List.mem_cons_self a rest, by simp [hs], rfl⟩
          · obtain ⟨a0, ha0, hrest⟩ := ih l (Or.inr h)
            exact ⟨a0, List.mem_cons_of_mem a ha0, hrest⟩

/-- A URL that is already visited, robots-disallowed or pattern-excluded is
skipped with the state unchanged and no record. -/
theorem fetch_page_skip (cfg : CrawlConfig) (web : Web) (robots : String → Bool)
    (st : CrawlState) (url : String) (depth : Nat)
    (h : url ∈ st.visited ∨ can_fetch cfg robots url = false ∨
      should_exclude_url cfg url = true) :
    fetch_page cfg web robots st url depth = (st, none) := by
  unfold fetch_page
  rw [if_pos h]

/-- fetch_page either leaves the state untouched or marks exactly the
fetched (previously unvisited) URL visited. -/
theorem fetch_page_visited_cases (cfg : CrawlConfig) (web : Web) (robots : String → Bool)
    (st : CrawlState) (url : String) (depth : Nat) :
    fetch_page cfg web robots st url depth = (st, none) ∨
    (url ∉ st.visited ∧
      (fetch_page cfg web robots st url depth).1.visited = url :: st.visited) := by
  unfold fetch_page
  by_cases h : url ∈ st.visited ∨ can_fetch cfg robots url = false ∨
      should_exclude_url cfg url = true
  · rw [if_pos h]
    exact Or.inl rfl
  · rw [if_neg h]
    push_neg at h
    cases hw : webFetch web url
    · exact Or.inr ⟨h.1, rfl⟩
    · exact Or.inr ⟨h.1, rfl⟩

/-- fetch_page never removes visited URLs. -/
theorem fetch_page_visited_subset (cfg : CrawlConfig) (web : Web) (robots : String → Bool)
    (st : CrawlState) (url : String) (depth : Nat) :
    st.visited ⊆ (fetch_page cfg web robots st url depth).1.visited := by
  rcases fetch_page_visited_cases cfg web robots st url depth with h | h
  · rw [h]
    exact fun _ hx => hx
  · rw [h.2]
    exact fun x hx => List.mem_cons_of_mem _ hx

/-- What a produced record says: it carries the dispatched URL and depth,
the URL was fresh and is now visited, and the record is the analysis of the
fetched document. -/
theorem fetch_page_some (cfg : CrawlConfig) (web : Web) (robots : String → Bool)
    (st : CrawlState) (url : String) (depth : Nat) (r : PageRecord)
    (h : (fetch_page cfg web robots st url depth).2 = some r) :
    r.url = url ∧ r.depth = depth ∧ url ∉ st.visited ∧
    (fetch_page cfg web robots st url depth).1.visited = url :: st.visited ∧
    ∃ pd, webFetch web url = some pd ∧ r = analyze_page_model url depth pd := by
  unfold fetch_page at h ⊢
  by_cases hc : url ∈ st.visited ∨ can_fetch cfg robots url = false ∨
      should_exclude_url cfg url = true
  · rw [if_pos hc] at h
    simp at h
  · rw [if_neg hc] at h ⊢
    push_neg at hc
    cases hw : webFetch web url with
    | none =>
        rw [hw] at h
        simp at h
    | some pd =>
        rw [hw] at h
        dsimp only at h ⊢
        simp only [Option.some.injEq] at h
        refine ⟨by rw [← h]; rfl, by rw [← h]; rfl, hc.1, rfl, pd, rfl, h.symm⟩

/-- The batch loop never removes visited URLs. -/
theorem process_batch_visited_subset (cfg : CrawlConfig) (web : Web) (robots : String → Bool) :
    ∀ batch st, st.visited ⊆ (process_batch cfg web robots st batch).1.visited := by
  intro batch
  induction batch with
  | nil =>
      intro st
      simp [process_batch]
  | cons e rest ih =>
      intro st
      obtain ⟨u, d⟩ := e
      simp only [process_batch]
      exact (fetch_page_visited_subset cfg web robots st u d).trans (ih _)

/-- The records a batch produces: each was fresh before the batch, is
visited afterwards, stems from a batch entry, and is the analysis of its
fetched document; the produced URLs are distinct and no more numerous than
the batch. -/
theorem process_batch_records (cfg : CrawlConfig) (web : Web) (robots : String → Bool) :
    ∀ batch st,
      (∀ r ∈ (process_batch cfg web robots st batch).2,
        r.url ∉ st.visited ∧
        r.url ∈ (process_batch cfg web robots st batch).1.visited ∧
        (∃ e ∈ batch, r.url = e.1 ∧ r.depth = e.2) ∧
        (∃ pd, webFetch web r.url = some pd ∧
          r = analyze_page_model r.url r.depth pd)) ∧
      ((process_batch cfg web robots st batch).2.map (fun r => r.url)).Nodup ∧
      (process_batch cfg web robots st batch).2.length ≤ batch.length := by
  intro batch
  induction batch with
  | nil =>
      intro st
      simp [process_batch]
  | cons e rest ih =>
      intro st
      obtain ⟨u, d⟩ := e
      simp only [process_batch]
      have hsub := fetch_page_visited_subset cfg web robots st u d
      cases hf : (fetch_page cfg web robots st u d).2 with
      | none =>
          obtain ⟨ih1, ih2, ih3⟩ := ih (fetch_page cfg web robots st u d).1
          refine ⟨?_, ih2, le_trans ih3 (Nat.le_succ _)⟩
          intro r hr
          obtain ⟨h1, h2, ⟨e0, he0, hp0⟩, h4⟩ := ih1 r hr
          exact ⟨fun hmem => h1 (hsub hmem), h2,
            ⟨e0, List.mem_cons_of_mem _ he0, hp0⟩, h4⟩
      | some r0 =>
          obtain ⟨hu, hd, hfresh, hvis, pd, hw, heq⟩ :=
            fetch_page_some cfg web robots st u d r0 hf
          obtain ⟨ih1, ih2, ih3⟩ := ih (fetch_page cfg web robots st u d).1
          have hpb := process_batch_visited_subset cfg web robots rest
            (fetch_page cfg web robots st u d).1
          refine ⟨?_, ?_, by simpa using Nat.succ_le_succ ih3⟩
          · intro r hr
            rcases List.mem_cons.mp hr with hr | hr
            · subst hr
              refine ⟨by rw [hu]; exact hfresh, ?_,
                ⟨(u, d), List.mem_cons_self _ _, hu, hd⟩, ?_⟩
              · apply hpb
                rw [hvis, hu]
                exact List.mem_cons_self _ _
              · exact ⟨pd, by rw [hu]; exact hw, by rw [hu, hd]; exact heq⟩
            · obtain ⟨h1, h2, ⟨e0, he0, hp0⟩, h4⟩ := ih1 r hr
              refine ⟨fun hmem => h1 (hsub hmem), h2,
                ⟨e0, List.mem_cons_of_mem _ he0, hp0⟩, h4⟩
          · simp only [List.map_cons, List.nodup_cons]
            refine ⟨?_, ih2⟩
            intro hmem
            obtain ⟨r1, hr1, hru⟩ := List.mem_map.mp hmem
            obtain ⟨h1, -, -, -⟩ := ih1 r1 hr1
            apply h1
            rw [hru, hvis, hu]
            exact List.mem_cons_self _ _

/-- Any successfully fetched document has at most webLinkBound anchors. -/
theorem webFetch_anchors_le (web : Web) :
    ∀ u pd, webFetch web u = some pd → pd.anchors.length ≤ webLinkBound web := by
  induction web with
  | nil =>
      intro u pd h
      simp [webFetch] at h
  | cons kv rest ih =>
      intro u pd h
      obtain ⟨k, v⟩ := kv
      simp only [webFetch] at h
      split_ifs at h with hk
      · cases v with
        | none => simp at h
        | some pd0 =>
            simp only [Option.some.injEq] at h
            subst h
            simp [webLinkBound]
      · have hrec := ih u pd h
        cases v with
        | none => simpa [webLinkBound] using hrec
        | some pd0 =>
            simp only [webLinkBound]
            exact le_max_of_le_right hrec

/-- The analyzer extracts at most as many internal links as the document has
anchors. -/
theorem analyze_page_model_links_le (url : String) (depth : Nat) (pd : PageData) :
    (analyze_page_model url depth pd).internal_links.length ≤ pd.anchors.length := by
  have h1 := extract_links_count pd.anchors url
  have h2 := List.length_filter_le (fun a => !href_skip a.href) pd.anchors
  simp only [analyze_page_model]
  omega

/-- Every record a batch produces carries at most webLinkBound internal
links. -/
theorem process_batch_links_le (cfg : CrawlConfig) (web : Web) (robots : String → Bool)
    (batch : List (String × Nat)) (st : CrawlState) (r : PageRecord)
    (hr : r ∈ (process_batch cfg web robots st batch).2) :
    r.internal_links.length ≤ webLinkBound web := by
  obtain ⟨-, -, -, pd, hw, heq⟩ := (process_batch_records cfg web robots batch st).1 r hr
  have h1 : r.internal_links.length = (analyze_page_model r.url r.depth pd).internal_links.length :=
    congrArg (fun x => x.internal_links.length) heq
  rw [h1]
  exact le_trans (analyze_page_model_links_le r.url r.depth pd) (webFetch_anchors_le web r.url pd hw)

/-- Entries appended by enqueue_links for a record at depth d carry depth
d + 1 and appear only when d is below max_depth. -/
theorem enqueue_links_mem (cfg : CrawlConfig) (visited : List String) (n : Nat)
    (queue : List (String × Nat)) (r : PageRecord) (e : String × Nat)
    (h : e ∈ enqueue_links cfg visited n queue r) :
    e ∈ queue ∨ (e.2 = r.depth + 1 ∧ r.depth < cfg.max_depth) := by
  unfold enqueue_links at h
  split_ifs at h with hd
  · rcases List.mem_append.mp h with h2 | h2
    · exact Or.inl h2
    · right
      obtain ⟨ld, hld, he⟩ := List.mem_map.mp h2
      subst he
      exact ⟨rfl, hd⟩
  · exact Or.inl h

/-- enqueue_links appends at most the record's internal links. -/
theorem enqueue_links_length (cfg : CrawlConfig) (visited : List String) (n : Nat)
    (queue : List (String × Nat)) (r : PageRecord) :
    (enqueue_links cfg visited n queue r).length ≤
      queue.length + r.internal_links.length := by
  unfold enqueue_links
  split_ifs
  · rw [List.length_append, List.length_map]
    have := List.length_filter_le (fun ld =>
      decide (ld.url ∉ visited) && decide (n < cfg.max_urls) &&
        !should_exclude_url cfg ld.url) r.internal_links
    omega
  · omega

/-- The result-integration loop appends exactly the batch records to the
crawled pages, in order. -/
theorem integrate_pages_eq (cfg : CrawlConfig) (visited : List String) :
    ∀ rs pages queue, (integrate cfg visited rs pages queue).1 = pages ++ rs := by
  intro rs
  induction rs with
  | nil =>
      intro pages queue
      simp [integrate]
  | cons r rs ih =>
      intro pages queue
      simp only [integrate]
      rw [ih]
      simp

/-- Every queue entry after integration was already queued or was enqueued
for some record at one more than that record's depth, below max_depth. -/
theorem integrate_queue_mem (cfg : CrawlConfig) (visited : List String) :
    ∀ rs pages queue e, e ∈ (integrate cfg visited rs pages queue).2 →
      e ∈ queue ∨ ∃ r ∈ rs, e.2 = r.depth + 1 ∧ r.depth < cfg.max_depth := by
  intro rs
  induction rs with
  | nil =>
      intro pages queue e h
      exact Or.inl (by simpa [integrate] using h)
  | cons r rs ih =>
      intro pages queue e h
      simp only [integrate] at h
      rcases ih _ _ _ h with h2 | h2
      · rcases enqueue_links_mem cfg visited _ _ r e h2 with h3 | h3
        · exact Or.inl h3
        · exact Or.inr ⟨r, List.mem_cons_self _ _, h3⟩
      · obtain ⟨r0, hr0, hp⟩ := h2
        exact Or.inr ⟨r0, List.mem_cons_of_mem _ hr0, hp⟩

/-- Queue growth during integration is bounded by the records' link
counts. -/
theorem integrate_queue_length (cfg : CrawlConfig) (visited : List String) (L : Nat) :
    ∀ rs pages queue, (∀ r ∈ rs, r.internal_links.length ≤ L) →
      (integrate cfg visited rs pages queue).2.length ≤ queue.length + rs.length * L := by
  intro rs
  induction rs with
  | nil =>
      intro pages queue h
      simp [integrate]
  | cons r rs ih =>
      intro pages queue h
      simp only [integrate]
      have h1 := ih (pages ++ [r]) (enqueue_links cfg visited (pages ++ [r]).length queue r)
        (fun r' hr' => h r' (List.mem_cons_of_mem _ hr'))
      have h2 := enqueue_links_length cfg visited (pages ++ [r]).length queue r
      have h3 := h r (List.mem_cons_self _ _)
      have hmul : (rs.length + 1) * L = rs.length * L + L := by ring
      simp only [List.length_cons]
      omega

/-- The crawl loop reaches a stop condition within the measure
`queue length + (max_urls + max_concurrent - pages) * link bound` of fuel:
every iteration consumes at least one queue entry and enqueues at most
(records produced) * (link bound) new ones. -/
theorem crawl_loop_isSome (cfg : CrawlConfig) (web : Web) (robots : String → Bool)
    (hmc : 1 ≤ cfg.max_concurrent) :
    ∀ fuel st queue pages,
      queue.length +
          (cfg.max_urls + cfg.max_concurrent - pages.length) * webLinkBound web + 1 ≤ fuel →
      (crawl_loop cfg web robots fuel st queue pages).isSome := by
  intro fuel
  induction fuel with
  | zero =>
      intro st q p h
      exact absurd h (by omega)
  | succ fuel ih =>
      intro st q p h
      simp only [crawl_loop]
      split_ifs with hstop
      · simp
      · push_neg at hstop
        obtain ⟨hq, hp⟩ := hstop
        set L := webLinkBound web with hL
        set b := min cfg.max_concurrent q.length with hb
        set batch := (q.take b).filter (fun e => decide (e.2 ≤ cfg.max_depth)) with hbatch
        set pr := process_batch cfg web robots st batch with hpr
        set iq := integrate cfg pr.1.visited pr.2 p (q.drop b) with hiq
        apply ih
        have hq1 : 1 ≤ q.length := List.length_pos.mpr hq
        have hb1 : 1 ≤ b := le_min hmc hq1
        have hbq : b ≤ q.length := min_le_right _ _
        have hS : pr.2.length ≤ b := by
          have h1 := (process_batch_records cfg web robots batch st).2.2
          rw [← hpr] at h1
          have h2 : batch.length ≤ (q.take b).length := List.length_filter_le _ _
          have h3 : (q.take b).length = b := by
            rw [List.length_take]
            omega
          omega
        have hrecL : ∀ r ∈ pr.2, r.internal_links.length ≤ L :=
          fun r hr => process_batch_links_le cfg web robots batch st r hr
        have hqlen : iq.2.length ≤ (q.length - b) + pr.2.length * L := by
          have h1 := integrate_queue_length cfg pr.1.visited L pr.2 p (q.drop b) hrecL
          rw [List.length_drop] at h1
          exact h1
        have hplen : iq.1.length = p.length + pr.2.length := by
          rw [hiq, integrate_pages_eq]
          simp
        have hSmc : pr.2.length ≤ cfg.max_concurrent := le_trans hS (min_le_left _ _)
        have hmul : pr.2.length * L +
            (cfg.max_urls + cfg.max_concurrent - (p.length + pr.2.length)) * L =
            (cfg.max_urls + cfg.max_concurrent - p.length) * L := by
          rw [← Nat.add_mul]
          congr 1
          omega
        rw [hplen]
        obtain ⟨X, hX⟩ : ∃ X, pr.2.length * L = X := ⟨_, rfl⟩
        obtain ⟨Y, hY⟩ : ∃ Y,
            (cfg.max_urls + cfg.max_concurrent - (p.length + pr.2.length)) * L = Y := ⟨_, rfl⟩
        obtain ⟨Z, hZ⟩ : ∃ Z, (cfg.max_urls + cfg.max_concurrent - p.length) * L = Z := ⟨_, rfl⟩
        rw [hX] at hqlen
        rw [hY]
        rw [hZ] at h
        rw [hX, hY, hZ] at hmul
        omega

/-- Whenever the loop returns, the page count is bounded by its initial
value or by max_urls + max_concurrent - 1: the loop only runs while the
count is below max_urls and a batch appends at most max_concurrent pages. -/
theorem crawl_loop_pages_bound (cfg : CrawlConfig) (web : Web) (robots : String → Bool) :
    ∀ fuel st queue pages P stF,
      crawl_loop cfg web robots fuel st queue pages = some (P, stF) →
      P.length ≤ max pages.length (cfg.max_urls + cfg.max_concurrent - 1) := by
  intro fuel
  induction fuel with
  | zero =>
      intro st q p P stF h
      simp [crawl_loop] at h
  | succ fuel ih =>
      intro st q p P stF h
      simp only [crawl_loop] at h
      split_ifs at h with hstop
      · simp only [Option.some.injEq, Prod.mk.injEq] at h
        rw [← h.1]
        exact le_max_left _ _
      · push_neg at hstop
        obtain ⟨hq, hp⟩ := hstop
        set b := min cfg.max_concurrent q.length with hb
        set batch := (q.take b).filter (fun e => decide (e.2 ≤ cfg.max_depth)) with hbatch
        set pr := process_batch cfg web robots st batch with hpr
        set iq := integrate cfg pr.1.visited pr.2 p (q.drop b) with hiq
        have hres := ih _ _ _ _ _ h
        have hS : pr.2.length ≤ b := by
          have h1 := (process_batch_records cfg web robots batch st).2.2
          rw [← hpr] at h1
          have h2 : batch.length ≤ (q.take b).length := List.length_filter_le _ _
          have h3 : (q.take b).length ≤ b := by
            rw [List.length_take]
            omega
          omega
        have hSmc : pr.2.length ≤ cfg.max_concurrent := le_trans hS (min_le_left _ _)
        have hplen : iq.1.length = p.length + pr.2.length := by
          rw [hiq, integrate_pages_eq]
          simp
        refine le_trans hres (le_trans (max_le ?_ (le_refl _)) (le_max_right _ _))
        omega

/-- Whenever the loop returns, every produced record's depth is at most
max_depth, because tasks are created only for frontier entries with depth
at most max_depth. -/
theorem crawl_loop_depth_bound (cfg : CrawlConfig) (web : Web) (robots : String → Bool) :
    ∀ fuel st queue pages P stF,
      crawl_loop cfg web robots fuel st queue pages = some (P, stF) →
      (∀ p0 ∈ pages, p0.depth ≤ cfg.max_depth) →
      ∀ p0 ∈ P, p0.depth ≤ cfg.max_depth := by
  intro fuel
  induction fuel with
  | zero =>
      intro st q p P stF h
      simp [crawl_loop] at h
  | succ fuel ih =>
      intro st q p P stF h hinv
      simp only [crawl_loop] at h
      split_ifs at h with hstop
      · simp only [Option.some.injEq, Prod.mk.injEq] at h
        rw [← h.1]
        exact hinv
      · set b := min cfg.max_concurrent q.length with hb
        set batch := (q.take b).filter (fun e => decide (e.2 ≤ cfg.max_depth)) with hbatch
        set pr := process_batch cfg web robots st batch with hpr
        set iq := integrate cfg pr.1.visited pr.2 p (q.drop b) with hiq
        refine ih _ _ _ _ _ h ?_
        have hbatchd : ∀ r ∈ pr.2, r.depth ≤ cfg.max_depth := by
          intro r hr
          obtain ⟨-, -, ⟨e, he, -, hd⟩, -⟩ :=
            (process_batch_records cfg web robots batch st).1 r hr
          have hf := List.mem_filter.mp he
          rw [hd]
          simpa using hf.2
        intro p0 hp0
        rw [hiq, integrate_pages_eq] at hp0
        rcases List.mem_append.mp hp0 with h2 | h2
        · exact hinv p0 h2
        · exact hbatchd p0 h2

/-- Whenever the loop returns, the produced records carry pairwise distinct
URLs, provided the pages so far are distinct and all already visited. -/
theorem crawl_loop_nodup (cfg : CrawlConfig) (web : Web) (robots : String → Bool) :
    ∀ fuel st queue pages P stF,
      crawl_loop cfg web robots fuel st queue pages = some (P, stF) →
      (pages.map (fun p0 => p0.url)).Nodup →
      (∀ p0 ∈ pages, p0.url ∈ st.visited) →
      (P.map (fun p0 => p0.url)).Nodup := by
  intro fuel
  induction fuel with
  | zero =>
      intro st q p P stF h
      simp [crawl_loop] at h
  | succ fuel ih =>
      intro st q p P stF h hnd hinv
      simp only [crawl_loop] at h
      split_ifs at h with hstop
      · simp only [Option.some.injEq, Prod.mk.injEq] at h
        rw [← h.1]
        exact hnd
      · set b := min cfg.max_concurrent q.length with hb
        set batch := (q.take b).filter (fun e => decide (e.2 ≤ cfg.max_depth)) with hbatch
        set pr := process_batch cfg web robots st batch with hpr
        set iq := integrate cfg pr.1.visited pr.2 p (q.drop b) with hiq
        obtain ⟨hrec, hrnd, -⟩ := process_batch_records cfg web robots batch st
        have hsub := process_batch_visited_subset cfg web robots batch st
        refine ih _ _ _ _ _ h ?_ ?_
        · rw [hiq, integrate_pages_eq, List.map_append, List.nodup_append]
          refine ⟨hnd, hrnd, ?_⟩
          intro a ha ha2
          obtain ⟨p1, hp1, hpu1⟩ := List.mem_map.mp ha
          obtain ⟨p2, hp2, hpu2⟩ := List.mem_map.mp ha2
          obtain ⟨hfresh, -, -, -⟩ := hrec p2 hp2
          apply hfresh
          rw [hpu2, ← hpu1]
          exact hinv p1 hp1
        · intro p0 hp0
          rw [hiq, integrate_pages_eq] at hp0
          rcases List.mem_append.mp hp0 with h2 | h2
          · exact hsub (hinv p0 h2)
          · exact (hrec p0 h2).2.1

/-! ## Claim theorems -/

/-- C9: for every input text the readability computation returns a score in
the closed interval [0, 100], returning 0 when the text has no sentences or
no words, and the language-adapted variant clamps its score the same way and
buckets it into a fixed finite set of readability levels. -/
theorem readability_clamped_and_bucketed :
    (∀ text : String, 0 ≤ ContentAnalyzer.calculate_readability text ∧
        ContentAnalyzer.calculate_readability text ≤ 100) ∧
    (∀ text : String, countSentences text = 0 ∨ (splitWords text).length = 0 →
        ContentAnalyzer.calculate_readability text = 0) ∧
    (∀ text language : String,
        0 ≤ (MultiLanguageContentAnalyzer.calculate_readability text language).score ∧
        (MultiLanguageContentAnalyzer.calculate_readability text language).score ≤ 100 ∧
        (MultiLanguageContentAnalyzer.calculate_readability text language).level ∈
          readabilityLevels) := by
  refine ⟨calculate_readability_mem, ?_, ?_⟩
  · intro text h
    unfold ContentAnalyzer.calculate_readability
    rw [if_pos h]
  · intro text language
    unfold MultiLanguageContentAnalyzer.calculate_readability
    split_ifs
    · exact calculate_hungarian_readability_mem text
    · exact calculate_flesch_readability_mem text

/-- Witness for C9: a text with words but no sentence-terminal punctuation
scores 0, via the zero-sentences clause. -/
theorem readability_clamped_and_bucketed_witness :
    ContentAnalyzer.calculate_readability r"no punctuation here" = 0 :=
  readability_clamped_and_bucketed.2.1 r"no punctuation here" (Or.inl (by decide))

/-- C7: a page with no title element makes the title rule emit exactly one
record, of type missing_title with severity critical and impact score 95;
a page whose stripped title text is 25 characters long makes it emit exactly
one short_title record with severity medium and impact score 60. -/
theorem analyze_title_missing_and_short :
    (TechnicalSEOAnalyzer.analyze_title none =
      [{ issue_type := r"missing_title", severity := r"critical",
         category := r"technical", impact_score := 95,
         element_selector := some r"title" }]) ∧
    ∀ raw : String, (pyStrip raw).length = 25 →
      TechnicalSEOAnalyzer.analyze_title (some raw) =
        [{ issue_type := r"short_title", severity := r"medium",
           category := r"content", impact_score := 60,
           element_selector := some r"title" }] := by
  refine ⟨rfl, ?_⟩
  intro raw h
  unfold TechnicalSEOAnalyzer.analyze_title
  simp [h]

/-- Witness for C7: a concrete 25-character title. -/
theorem analyze_title_missing_and_short_witness :
    TechnicalSEOAnalyzer.analyze_title (some r"abcdefghijklmnopqrstuvwxy") =
      [{ issue_type := r"short_title", severity := r"medium",
         category := r"content", impact_score := 60,
         element_selector := some r"title" }] :=
  analyze_title_missing_and_short.2 r"abcdefghijklmnopqrstuvwxy" (by decide)

/-- C8: a page whose canonical tag's href exactly equals the page's own URL
yields no canonical-related issue. -/
theorem analyze_canonical_self_referential (url : String) :
    TechnicalSEOAnalyzer.analyze_canonical (some (some url)) url = [] := by
  unfold TechnicalSEOAnalyzer.analyze_canonical
  simp

/-- Witness for C8: a concrete self-referential canonical tag yields no
issue. -/
theorem analyze_canonical_self_referential_witness :
    TechnicalSEOAnalyzer.analyze_canonical (some (some r"http://e/p")) r"http://e/p" = [] :=
  analyze_canonical_self_referential r"http://e/p"

/-- C6: should_exclude_url returns true exactly when some exclude pattern
occurs in the URL, or include patterns exist and none occurs in the URL;
with both lists empty it returns false, and an exclude match rejects
unconditionally. -/
theorem should_exclude_url_characterisation (cfg : CrawlConfig) (url : String) :
    (AsyncWebCrawler.should_exclude_url cfg url = true ↔
      (∃ p ∈ cfg.exclude_patterns, strContains url p = true) ∨
      (cfg.include_patterns ≠ [] ∧
        ∀ p ∈ cfg.include_patterns, strContains url p = false)) ∧
    (cfg.exclude_patterns = [] → cfg.include_patterns = [] →
      AsyncWebCrawler.should_exclude_url cfg url = false) ∧
    (∀ p ∈ cfg.exclude_patterns, strContains url p = true →
      AsyncWebCrawler.should_exclude_url cfg url = true) := by
  have hmain : AsyncWebCrawler.should_exclude_url cfg url = true ↔
      (∃ p ∈ cfg.exclude_patterns, strContains url p = true) ∨
      (cfg.include_patterns ≠ [] ∧
        ∀ p ∈ cfg.include_patterns, strContains url p = false) := by
    unfold AsyncWebCrawler.should_exclude_url
    by_cases hex : cfg.exclude_patterns.any (fun p => strContains url p) = true
    · rw [if_pos hex]
      simp only [List.any_eq_true] at hex
      exact iff_of_true rfl (Or.inl hex)
    · rw [if_neg hex]
      rw [Bool.not_eq_true] at hex
      have hexn : ¬∃ p ∈ cfg.exclude_patterns, strContains url p = true := by
        rw [← List.any_eq_true]
        simp [hex]
      by_cases hinc : cfg.include_patterns.isEmpty = true
      · rw [if_pos hinc]
        rw [List.isEmpty_iff] at hinc
        simp [hexn, hinc]
      · rw [if_neg hinc]
        rw [Bool.not_eq_true, List.isEmpty_eq_false_iff_exists_mem] at hinc
        constructor
        · intro h
          rw [Bool.not_eq_true', ← Bool.not_eq_true, List.any_eq_true] at h
          push_neg at h
          refine Or.inr ⟨?_, ?_⟩
          · intro hnil
            obtain ⟨x, hx⟩ := hinc
            simp [hnil] at hx
          · intro p hp
            have := h p hp
            simpa using this
        · intro h
          rcases h with h | h
          · exact absurd h hexn
          · rw [Bool.not_eq_true', ← Bool.not_eq_true, List.any_eq_true]
            push_neg
            intro p hp
            simp [h.2 p hp]
  refine ⟨hmain, ?_, ?_⟩
  · intro he hi
    rw [← Bool.not_eq_true, hmain]
    simp [he, hi]
  · intro p hp hc
    rw [hmain]
    exact Or.inl ⟨p, hp, hc⟩

/-- Witness for C6: the exclude pattern "x" rejects "axb", and with both
pattern lists empty no URL is excluded. -/
theorem should_exclude_url_characterisation_witness :
    AsyncWebCrawler.should_exclude_url cfgW6 r"axb" = true ∧
    AsyncWebCrawler.should_exclude_url cfgW6e r"axb" = false :=
  ⟨(should_exclude_url_characterisation cfgW6 r"axb").2.2 r"x" (by decide) (by decide),
   (should_exclude_url_characterisation cfgW6e r"axb").2.1 rfl rfl⟩

/-- C2, counterexample: the claim says a fragment-bearing href is resolved
with the fragment stripped, but the code discards any href containing '#'
outright: on a page with the single anchor href="/a#b" and base
"http://e/", the code returns no links while the claim's reading returns one
internal link "http://e/a". -/
theorem extract_links_fragment_dropped_counterexample :
    extract_links_detailed [aC2] r"http://e/" ≠ extract_links_spec [aC2] r"http://e/" ∧
    extract_links_detailed [aC2] r"http://e/" = ([], []) := by
  constructor
  · decide
  · decide

/-- C2 (amended): extract_links_detailed discards every anchor whose href
contains "mailto:", "tel:", "javascript:" or "#" anywhere as a substring (so
fragment-bearing hrefs are dropped entirely, not fragment-stripped); each
surviving anchor's href is resolved to an absolute URL against the base URL
and classified as internal exactly when its host equals the base URL's host,
otherwise external. -/
theorem extract_links_detailed_classification (anchors : List Anchor) (base_url : String) :
    (∀ l ∈ (extract_links_detailed anchors base_url).1,
        netloc l.url = netloc base_url) ∧
    (∀ l ∈ (extract_links_detailed anchors base_url).2,
        netloc l.url ≠ netloc base_url) ∧
    ((extract_links_detailed anchors base_url).1.length +
        (extract_links_detailed anchors base_url).2.length =
      (anchors.filter (fun a => !href_skip a.href)).length) ∧
    (∀ l, l ∈ (extract_links_detailed anchors base_url).1 ∨
        l ∈ (extract_links_detailed anchors base_url).2 →
      ∃ a ∈ anchors, href_skip a.href = false ∧
        l.url = resolve_href base_url a.href) :=
  ⟨(extract_links_netloc_split anchors base_url).1,
   (extract_links_netloc_split anchors base_url).2,
   extract_links_count anchors base_url,
   extract_links_origin anchors base_url⟩

/-- Witness for C2 (amended): on a concrete page with one internal anchor,
one external anchor and one fragment anchor, the extracted internal link
keeps the base host. -/
theorem extract_links_detailed_classification_witness :
    netloc ({ url := r"http://e/p", anchor_text := r"t", rel := [],
              is_navigation := false } : LinkData).url = netloc r"http://e/" :=
  (extract_links_detailed_classification anchorsW2 r"http://e/").1 _ (by decide)

/-- C1, counterexample: with max_urls=5, max_depth=1 and the remaining
config at its defaults (max_concurrent=10), a seed page linking to 10
distinct internal URLs yields 11 PageRecords, not 5: the max_urls bound is
checked only at batch boundaries, so the whole 10-entry second batch is
fetched. -/
theorem crawl_website_exceeds_max_urls_counterexample :
    (outcomePages (crawl_website cfgC1 webC1 robotsAll r"http://e/")).length = 11 ∧
    ¬((outcomePages (crawl_website cfgC1 webC1 robotsAll r"http://e/")).length ≤
        cfgC1.max_urls) := by
  constructor
  · decide
  · decide

/-- C1 (amended): for every job with max_concurrent ≥ 1, crawl_website
terminates (its loop reaches a batch boundary at which the frontier is
empty or the page count has reached max_urls), the number of PageRecords
produced never exceeds max_urls + max_concurrent - 1 (the bound is checked
only between batches, so a final full batch may overshoot max_urls by up to
max_concurrent - 1), and no record's depth exceeds max_depth. -/
theorem crawl_website_terminates_within_batch_bound (cfg : CrawlConfig) (web : Web)
    (robots : String → Bool) (start_url : String) (hmc : 1 ≤ cfg.max_concurrent) :
    crawl_website cfg web robots start_url ≠ CrawlOutcome.fuelOut ∧
    (outcomePages (crawl_website cfg web robots start_url)).length ≤
      cfg.max_urls + cfg.max_concurrent - 1 ∧
    ∀ p0 ∈ outcomePages (crawl_website cfg web robots start_url),
      p0.depth ≤ cfg.max_depth := by
  have hsome := crawl_loop_isSome cfg web robots hmc (crawl_fuel cfg web) initState
    (init_frontier start_url) []
    (by
      simp only [init_frontier, List.length_singleton, List.length_nil, Nat.sub_zero,
        crawl_fuel]
      generalize (cfg.max_urls + cfg.max_concurrent) * webLinkBound web = X
      omega)
  unfold crawl_website
  cases hres : crawl_loop cfg web robots (crawl_fuel cfg web) initState
      (init_frontier start_url) [] with
  | none =>
      rw [hres] at hsome
      simp at hsome
  | some ps =>
      obtain ⟨pages, stF⟩ := ps
      have hlen := crawl_loop_pages_bound cfg web robots _ _ _ _ _ _ hres
      have hdep := crawl_loop_depth_bound cfg web robots _ _ _ _ _ _ hres
        (by intro p0 hp0; simp at hp0)
      simp only [List.length_nil, Nat.zero_max] at hlen
      dsimp only
      split_ifs with hz
      · exact ⟨by simp, by simp [outcomePages], by simp [outcomePages]⟩
      · exact ⟨by simp, by simpa [outcomePages] using hlen,
          by simpa [outcomePages] using hdep⟩

/-- Witness for C1 (amended): the scenario run terminates and respects the
batch-relaxed bound. -/
theorem crawl_website_terminates_within_batch_bound_witness :
    crawl_website cfgC1 webC1 robotsAll r"http://e/" ≠ CrawlOutcome.fuelOut ∧
    (outcomePages (crawl_website cfgC1 webC1 robotsAll r"http://e/")).length ≤
      cfgC1.max_urls + cfgC1.max_concurrent - 1 :=
  ⟨(crawl_website_terminates_within_batch_bound cfgC1 webC1 robotsAll
      r"http://e/" (by decide)).1,
   (crawl_website_terminates_within_batch_bound cfgC1 webC1 robotsAll
      r"http://e/" (by decide)).2.1⟩

/-- C3: no two PageRecords of a crawl share a URL, and a URL already in the
visited set is never fetched again (fetch_page returns no record and leaves
the state unchanged, however many pages link to it). -/
theorem crawl_website_dedup (cfg : CrawlConfig) (web : Web) (robots : String → Bool)
    (start_url : String) :
    ((outcomePages (crawl_website cfg web robots start_url)).map
        (fun p0 => p0.url)).Nodup ∧
    ∀ st url depth, url ∈ st.visited →
      fetch_page cfg web robots st url depth = (st, none) := by
  constructor
  · unfold crawl_website
    cases hres : crawl_loop cfg web robots (crawl_fuel cfg web) initState
        (init_frontier start_url) [] with
    | none => simp [outcomePages]
    | some ps =>
        obtain ⟨pages, stF⟩ := ps
        have hnd := crawl_loop_nodup cfg web robots _ _ _ _ _ _ hres
          (by simp) (by intro p0 hp0; simp at hp0)
        dsimp only
        split_ifs with hz
        · simp [outcomePages]
        · simpa [outcomePages] using hnd
  · intro st url depth h
    exact fetch_page_skip cfg web robots st url depth (Or.inl h)

/-- Witness for C3: a URL in the visited set is skipped without a record or
a state change. -/
theorem crawl_website_dedup_witness :
    fetch_page defaultConfig ([] : Web) robotsAll stW3 r"u" 0 = (stW3, none) :=
  (crawl_website_dedup defaultConfig [] robotsAll r"u").2 stW3 r"u" 0 (by decide)

/-- C4: every frontier entry appended for a record at depth d carries depth
exactly d + 1 and is appended only when d < max_depth, the seed frontier
entry has depth 0, and consequently no produced record's depth exceeds
max_depth. -/
theorem frontier_depth_invariant (cfg : CrawlConfig) (web : Web) (robots : String → Bool)
    (start_url : String) :
    (∀ visited n queue r e, e ∈ enqueue_links cfg visited n queue r →
        e ∈ queue ∨ (e.2 = r.depth + 1 ∧ r.depth < cfg.max_depth)) ∧
    (∀ e ∈ init_frontier start_url, e.2 = 0) ∧
    ∀ p0 ∈ outcomePages (crawl_website cfg web robots start_url),
      p0.depth ≤ cfg.max_depth := by
  refine ⟨?_, ?_, ?_⟩
  · intro visited n queue r e h
    exact enqueue_links_mem cfg visited n queue r e h
  · intro e he
    simp only [init_frontier, List.mem_singleton] at he
    subst he
    rfl
  · unfold crawl_website
    cases hres : crawl_loop cfg web robots (crawl_fuel cfg web) initState
        (init_frontier start_url) [] with
    | none => simp [outcomePages]
    | some ps =>
        obtain ⟨pages, stF⟩ := ps
        have hdep := crawl_loop_depth_bound cfg web robots _ _ _ _ _ _ hres
          (by intro p0 hp0; simp at hp0)
        dsimp only
        split_ifs with hz
        · simp [outcomePages]
        · simpa [outcomePages] using hdep

/-- Witness for C4: a concrete record at depth 0 enqueues its internal link
at depth 1, below max_depth. -/
theorem frontier_depth_invariant_witness :
    ((r"http://e/0", 1) : String × Nat) ∈ ([] : List (String × Nat)) ∨
    ((1 : Nat) = rW4.depth + 1 ∧ rW4.depth < defaultConfig.max_depth) :=
  (frontier_depth_invariant defaultConfig [] robotsAll r"s").1
    [] 1 [] rW4 (r"http://e/0", 1) (by decide)

/-- C5: a fresh, allowed, non-excluded URL whose fetch raises increments
the failed counter by exactly 1, yields no PageRecord and leaves the
success counter unchanged; a robots-rejected or pattern-excluded URL yields
no PageRecord with the stats untouched (failed not incremented); and in
either case the batch continues with the remaining frontier entries. -/
theorem fetch_page_error_handling (cfg : CrawlConfig) (web : Web) (robots : String → Bool) :
    (∀ st url depth, url ∉ st.visited → can_fetch cfg robots url = true →
        should_exclude_url cfg url = false → webFetch web url = none →
        (fetch_page cfg web robots st url depth).1.failed = st.failed + 1 ∧
        (fetch_page cfg web robots st url depth).2 = none ∧
        (fetch_page cfg web robots st url depth).1.successful = st.successful) ∧
    (∀ st url depth, can_fetch cfg robots url = false ∨
        should_exclude_url cfg url = true →
        fetch_page cfg web robots st url depth = (st, none)) ∧
    (∀ st url depth rest, (fetch_page cfg web robots st url depth).2 = none →
        (process_batch cfg web robots st ((url, depth) :: rest)).2 =
          (process_batch cfg web robots (fetch_page cfg web robots st url depth).1 rest).2) := by
  refine ⟨?_, ?_, ?_⟩
  · intro st url depth hv hr he hw
    have hcond : ¬(url ∈ st.visited ∨ can_fetch cfg robots url = false ∨
        should_exclude_url cfg url = true) := by
      push_neg
      exact ⟨hv, by simp [hr], by simp [he]⟩
    unfold fetch_page
    rw [if_neg hcond, hw]
    exact ⟨rfl, rfl, rfl⟩
  · intro st url depth h
    exact fetch_page_skip cfg web robots st url depth (Or.inr h)
  · intro st url depth rest h
    simp only [process_batch]
    rw [h]

/-- Witness for C5: fetching an unreachable URL counts one failure, no
success and no record. -/
theorem fetch_page_error_handling_witness :
    (fetch_page defaultConfig ([] : Web) robotsAll initState r"u" 0).1.failed =
        initState.failed + 1 ∧
    (fetch_page defaultConfig ([] : Web) robotsAll initState r"u" 0).2 = none :=
  ⟨((fetch_page_error_handling defaultConfig [] robotsAll).1 initState r"u" 0
      (by decide) (by decide) (by decide) (by decide)).1,
   ((fetch_page_error_handling defaultConfig [] robotsAll).1 initState r"u" 0
      (by decide) (by decide) (by decide) (by decide)).2.1⟩

/-- C10: a run that processes no URL at all — here the seed URL is rejected
by the exclude-pattern filter — reaches the final statistics with
total_processed = 0, and the unguarded success-rate computation
successful / total_processed raises ZeroDivisionError instead of returning
normally. -/
theorem crawl_website_zero_processed_raises :
    crawl_website cfgC10 ([] : Web) robotsAll r"x" = CrawlOutcome.zeroDivError := by
  decide

end Seo
